import Mathlib

/-!
Verification of the youtube-comment-scraper pipeline core
(`comment-grouper.py` and `comment-analyzer.py`): period segmentation from
marker ("AMA") timestamps, greedy size-bounded batching of comments, and the
map/reduce summarize-and-merge step with its failure fallbacks.

Timestamps are modelled as natural numbers (any sortable representation);
the external text-generation call is modelled by its outcome, an
`Option String` (`some content` for a successful call returning `content`,
`none` for any raised failure).
-/

/-- A row of the scraped comments table (one comment record), with the columns
produced by `comment-scraper.py` and consumed by the grouper/analyzer:
`author, text, likes, published_at, video_id, video_title, video_url`.
`published_at` is the comment's timestamp. -/
structure Record where
  author : String
  text : String
  likes : Nat
  published_at : Nat
  video_id : String
  video_title : String
  video_url : String
  deriving DecidableEq, Repr

/-! ## Batcher: `CommentAnalyzer.chunk_comments` (comment-analyzer.py, lines 26-46) -/

/-- The estimate `comment_tokens = len(comment) // 4` used by
`chunk_comments` (1 token per 4 characters). -/
def commentTokens (comment : String) : Nat :=
  comment.length / 4

/-- The loop of `chunk_comments`: state is the remaining comments, the
`current_chunk` accumulator and its `current_length`.  When
`current_length + comment_tokens > max_tokens` the current chunk is flushed
(as is, possibly empty) and a new chunk is started with the comment;
otherwise the comment is appended.  At the end a non-empty `current_chunk`
is appended (`if current_chunk: chunks.append(current_chunk)`). -/
def chunkAux (maxTokens : Nat) : List String → List String → Nat → List (List String)
  | [], current_chunk, _ =>
    if current_chunk.isEmpty then [] else [current_chunk]
  | comment :: rest, current_chunk, current_length =>
    if current_length + commentTokens comment > maxTokens then
      current_chunk :: chunkAux maxTokens rest [comment] (commentTokens comment)
    else
      chunkAux maxTokens rest (current_chunk ++ [comment]) (current_length + commentTokens comment)

/-- Function `chunk_comments(comments, max_tokens)` (the Python default is
`max_tokens = 3000`; here the limit is always passed explicitly). -/
def chunk_comments (comments : List String) (maxTokens : Nat) : List (List String) :=
  chunkAux maxTokens comments [] 0

/-- Aggregate estimated size of a batch: sum of `len(text) // 4` over its
comments. -/
def batchSize (batch : List String) : Nat :=
  (batch.map commentTokens).sum

example : chunk_comments [] 3000 = [] := by decide
example : chunk_comments ["aaaaaaaa"] 1 = [[], ["aaaaaaaa"]] := by decide
example : chunk_comments ["abcd", "efgh"] 1 = [["abcd"], ["efgh"]] := by decide
example : chunk_comments ["abcd", "efgh"] 2 = [["abcd", "efgh"]] := by decide

/-! ## Marker extraction: `find_ama_dates` (comment-grouper.py, lines 10-14) -/

/-- The configured marker token, hard-coded as `'AMA'` in
`df['video_title'].str.contains('AMA', case=False, na=False)`. -/
def markerToken : String := "AMA"

/-- Case folding of one character code, as used for `case=False` matching:
ASCII upper-case letters are mapped to their lower-case code. -/
def lowerCode (c : Char) : Nat :=
  if 65 ≤ c.toNat ∧ c.toNat ≤ 90 then c.toNat + 32 else c.toNat

/-- Predicate `str.contains('AMA', case=False)`: case-insensitive substring test of the
marker token against a video title (both sides case-folded, then a substring
test on the character codes). -/
def hasAmaMarker (title : String) : Bool :=
  decide ((markerToken.data.map lowerCode) <:+: (title.data.map lowerCode))

example : hasAmaMarker "Gulaq September AMA webinar" = true := by decide
example : hasAmaMarker "weekly ama session" = true := by decide
example : hasAmaMarker "market update" = false := by decide

/-- The loop behind `pandas` `Series.unique()`: the distinct values of a
sequence in order of first appearance; `seen` accumulates the values already
emitted. -/
def pandasUniqueAux {α : Type} [DecidableEq α] (seen : List α) : List α → List α
  | [] => []
  | x :: rest =>
    if x ∈ seen then pandasUniqueAux seen rest
    else x :: pandasUniqueAux (x :: seen) rest

/-- Model of `pandas` `Series.unique()`: the distinct values of a sequence, in order of
first appearance. -/
def pandasUnique {α : Type} [DecidableEq α] (l : List α) : List α :=
  pandasUniqueAux [] l

example : pandasUnique [3, 1, 3, 2, 1] = [3, 1, 2] := by decide

/-- Function `find_ama_dates(df)`: keep the rows whose `video_title` contains the
marker token (case-insensitively), sort them by `published_at`, and return the
unique `published_at` values.  Sorting rows by the key and then projecting the
key equals projecting first and sorting the values, so the row sort is
modelled by sorting the projected timestamps. -/
def find_ama_dates (df : List Record) : List Nat :=
  pandasUnique (List.insertionSort (· ≤ ·)
    ((df.filter (fun r => hasAmaMarker r.video_title)).map Record.published_at))

/-- Modelled from the spec, for comparison with `find_ama_dates` only (claim
C2's wording): "the distinct, ascending-sorted set of timestamps at which each
marker-bearing source first appears … one timestamp per marker source, its
earliest occurrence".  A source is a video (`video_id`); its first appearance
is the earliest `published_at` among its records. -/
def find_ama_dates_claimed (df : List Record) : List Nat :=
  pandasUnique (List.insertionSort (· ≤ ·)
    ((pandasUnique ((df.filter (fun r => hasAmaMarker r.video_title)).map Record.video_id)).map
      (fun sid =>
        (((df.filter (fun r => r.video_id == sid)).map Record.published_at).min?).getD 0)))

/-! ## Period boundaries and assignment: `assign_periods` (comment-grouper.py, lines 16-37) -/

/-- One period boundary as built by `assign_periods`: `start`/`end` timestamps
(the Python `end` is named `stop` here) and the rendered label
`f"Period {i+1}: {start} to {end}"`.  Rendering a timestamp as a calendar date
(`strftime('%Y-%m-%d')`) is abstracted to rendering the timestamp itself. -/
structure PeriodLabel where
  start : Nat
  stop : Nat
  label : String
  deriving DecidableEq, Repr

/-- The boundary built in iteration `i` of the `period_labels` loop of
`assign_periods`: `start_date = ama_dates[i]`, `end_date = ama_dates[i+1]`,
and the rendered label. -/
def mkBoundary (ama_dates : List Nat) (i : Nat) : PeriodLabel :=
  ⟨ama_dates.getD i 0, ama_dates.getD (i + 1) 0,
    "Period " ++ toString (i + 1) ++ ": " ++ toString (ama_dates.getD i 0)
      ++ " to " ++ toString (ama_dates.getD (i + 1) 0)⟩

/-- The `period_labels` list of `assign_periods`: for `i in
range(len(ama_dates)-1)`, a boundary from `ama_dates[i]` to `ama_dates[i+1]`. -/
def period_labels (ama_dates : List Nat) : List PeriodLabel :=
  (List.range (ama_dates.length - 1)).map (mkBoundary ama_dates)

/-- The per-record result of the assignment loop of `assign_periods`:
`df['period']` starts as `None`, and each boundary in order overwrites the
period of the records with `start <= published_at < end`, so the last matching
boundary wins. -/
def assignedPeriod (ps : List PeriodLabel) (t : Nat) : Option String :=
  ps.foldl (fun acc p => if p.start ≤ t ∧ t < p.stop then some p.label else acc) none

/-- Function `assign_periods(df, ama_dates)`: each record paired with its assigned
period label (`None` when no boundary matched). -/
def assign_periods (df : List Record) (ama_dates : List Nat) : List (Record × Option String) :=
  df.map (fun r => (r, assignedPeriod (period_labels ama_dates) r.published_at))

example : period_labels [1, 3, 5] =
    [⟨1, 3, "Period 1: 1 to 3"⟩, ⟨3, 5, "Period 2: 3 to 5"⟩] := by decide
example : assignedPeriod (period_labels [1, 3, 5]) 3 = some "Period 2: 3 to 5" := by decide
example : assignedPeriod (period_labels [1, 3, 5]) 0 = none := by decide
example : assignedPeriod (period_labels [1, 3, 5]) 5 = none := by decide

/-! ## Grouper entry point: `main` (comment-grouper.py, lines 82-100) -/

/-- The spec's configuration-error taxonomy: fewer than two distinct marker
timestamps. -/
inductive ConfigError where
  | InsufficientBoundaries
  deriving DecidableEq, Repr

/-- The grouper `main` up to its data result: after `find_ama_dates`, the
guard `if len(ama_dates) < 2` aborts the run (prints the error and returns,
writing no output file); otherwise the records are assigned to periods (the
downstream grouping and saving happen only in this branch). -/
def grouper_main (df : List Record) : Except ConfigError (List (Record × Option String)) :=
  let ama_dates := find_ama_dates df
  if ama_dates.length < 2 then
    Except.error ConfigError.InsufficientBoundaries
  else
    Except.ok (assign_periods df ama_dates)

/-! ## Summarizer and Merger: `analyze_chunk`, `merge_analyses`, `analyze_period`
(comment-analyzer.py, lines 48-110) -/

/-- Function `analyze_chunk(comments)`: the whole body is a `try/except`; a successful
external call returns its content, any raised failure is caught, logged, and
turned into the empty string. -/
def analyze_chunk (callResult : Option String) (comments : List String) : String :=
  match callResult, comments with
  | some content, _ => content
  | none, _ => ""

/-- Python `sep.join(strings)`. -/
def joinSep (sep : String) : List String → String
  | [] => ""
  | [a] => a
  | a :: rest => a ++ sep ++ joinSep sep rest

/-- Function `merge_analyses(analyses)`: empty input returns the fixed placeholder, a
singleton is returned unchanged, and otherwise the consolidation call's
content is returned on success while a raised failure falls back to
`"\n\n".join(analyses)`. -/
def merge_analyses (callResult : Option String) (analyses : List String) : String :=
  match analyses with
  | [] => "No analysis available."
  | [a] => a
  | _ =>
    match callResult with
    | some content => content
    | none => joinSep "\n\n" analyses

/-- The partial-summary collection loop of `analyze_period`: each chunk is
analyzed with its own external-call outcome (`outcomes`, one per chunk, zipped
in order), and only truthy (non-empty) analyses are appended to
`chunk_analyses`. -/
def chunk_analyses (outcomes : List (Option String)) (chunks : List (List String)) : List String :=
  ((chunks.zip outcomes).map (fun pr => analyze_chunk pr.2 pr.1)).filter
    (fun s => decide (s ≠ ""))

example : merge_analyses none [] = "No analysis available." := by decide
example : merge_analyses (some "zz") ["a"] = "a" := by decide
example : merge_analyses none ["a", "b"] = "a\n\nb" := by decide
example : merge_analyses (some "m") ["a", "b"] = "m" := by decide
example : chunk_analyses [some "x", none, some "y"] [["c1"], ["c2"], ["c3"]] = ["x", "y"] := by
  decide

/-! ## Batcher lemmas -/

/-- Every chunk produced from a non-empty accumulator is non-empty. -/
theorem chunkAux_ne_nil (maxTokens : Nat) (comments : List String) :
    ∀ (cur : List String) (len : Nat), cur ≠ [] →
      ∀ b ∈ chunkAux maxTokens comments cur len, b ≠ [] := by
  induction comments with
  | nil =>
    intro cur len hcur b hb
    simp only [chunkAux, List.isEmpty_eq_false.mpr hcur] at hb
    simp only [Bool.false_eq_true, if_false, List.mem_singleton] at hb
    exact hb ▸ hcur
  | cons c rest ih =>
    intro cur len hcur b hb
    simp only [chunkAux] at hb
    split at hb
    · rcases List.mem_cons.mp hb with rfl | hb
      · exact hcur
      · exact ih [c] (commentTokens c) (by simp) b hb
    · exact ih (cur ++ [c]) _ (by simp) b hb

/-- Every chunk after the first is non-empty: only the initial accumulator can
be flushed empty. -/
theorem chunkAux_tail_ne_nil (maxTokens : Nat) (comments : List String) :
    ∀ (cur : List String) (len : Nat),
      ∀ b ∈ (chunkAux maxTokens comments cur len).tail, b ≠ [] := by
  induction comments with
  | nil =>
    intro cur len b hb
    simp only [chunkAux] at hb
    split at hb <;> simp at hb
  | cons c rest ih =>
    intro cur len b hb
    simp only [chunkAux] at hb
    split at hb
    · exact chunkAux_ne_nil maxTokens rest [c] (commentTokens c) (by simp) b hb
    · exact ih (cur ++ [c]) _ b hb

/-- Flattening the chunks recovers the accumulator followed by the remaining
input. -/
theorem chunkAux_flatten (maxTokens : Nat) (comments : List String) :
    ∀ (cur : List String) (len : Nat),
      (chunkAux maxTokens comments cur len).flatten = cur ++ comments := by
  induction comments with
  | nil =>
    intro cur len
    simp only [chunkAux]
    split
    · next h => simp [List.isEmpty_iff.mp h]
    · simp
  | cons c rest ih =>
    intro cur len
    simp only [chunkAux]
    split
    · simp [ih]
    · simp [ih]

/-- Size invariant of the packing loop: provided the accumulator is within
the limit (or is a lone oversized comment), every emitted chunk is within the
limit or is a lone oversized comment. -/
theorem chunkAux_size (maxTokens : Nat) (comments : List String) :
    ∀ (cur : List String) (len : Nat), len = batchSize cur →
      (batchSize cur ≤ maxTokens ∨ ∃ c, cur = [c] ∧ maxTokens < commentTokens c) →
      ∀ b ∈ chunkAux maxTokens comments cur len,
        batchSize b ≤ maxTokens ∨ ∃ c, b = [c] ∧ maxTokens < commentTokens c := by
  induction comments with
  | nil =>
    intro cur len hlen hinv b hb
    simp only [chunkAux] at hb
    split at hb
    · simp at hb
    · rw [List.mem_singleton] at hb
      exact hb ▸ hinv
  | cons c rest ih =>
    intro cur len hlen hinv b hb
    simp only [chunkAux] at hb
    split at hb
    · rcases List.mem_cons.mp hb with rfl | hb
      · exact hinv
      · refine ih [c] (commentTokens c) (by simp [batchSize]) ?_ b hb
        rcases le_or_lt (commentTokens c) maxTokens with h | h
        · exact Or.inl (by simpa [batchSize] using h)
        · exact Or.inr ⟨c, rfl, h⟩
    · next hle =>
      refine ih (cur ++ [c]) _ (by simp [batchSize, hlen]) ?_ b hb
      left
      have : batchSize (cur ++ [c]) = len + commentTokens c := by
        simp [batchSize, hlen]
      omega

/-- C1 (counterexample): the input `["aaaaaaaa"]` is non-empty (one comment of
8 characters, estimated size 2), yet with limit 1 `chunk_comments` returns an
empty first batch — refuting "every batch returned is non-empty for every
non-empty input". -/
theorem chunk_comments_nonempty_claim_cex :
    (["aaaaaaaa"] : List String) ≠ [] ∧ ([] : List String) ∈ chunk_comments ["aaaaaaaa"] 1 := by
  decide

/-- C1 (amended): the empty input yields zero batches; every batch other than
the first is non-empty; and the first batch is empty exactly when the first
comment's estimated size already exceeds the limit (if it does, the head batch
is `[]`; if it does not, every batch is non-empty). -/
theorem chunk_comments_empty_batch_iff (comments : List String) (maxTokens : Nat) :
    (comments = [] → chunk_comments comments maxTokens = []) ∧
    (∀ b ∈ (chunk_comments comments maxTokens).tail, b ≠ []) ∧
    (∀ c cs, comments = c :: cs → commentTokens c ≤ maxTokens →
      ∀ b ∈ chunk_comments comments maxTokens, b ≠ []) ∧
    (∀ c cs, comments = c :: cs → maxTokens < commentTokens c →
      (chunk_comments comments maxTokens).head? = some []) := by
  refine ⟨?_, ?_, ?_, ?_⟩
  · rintro rfl; rfl
  · exact chunkAux_tail_ne_nil maxTokens comments [] 0
  · rintro c cs rfl hle b hb
    unfold chunk_comments chunkAux at hb
    rw [if_neg (by omega)] at hb
    exact chunkAux_ne_nil maxTokens cs ([] ++ [c]) _ (by simp) b hb
  · rintro c cs rfl hlt
    unfold chunk_comments chunkAux
    rw [if_pos (by omega)]
    rfl

/-- C1 (witness): the amended statement at concrete inputs — empty input gives
`[]`, limit 1 with an 8-character first comment gives an empty head batch, and
a within-limit first comment gives only non-empty batches. -/
theorem chunk_comments_empty_batch_iff_witness :
    chunk_comments ([] : List String) 5 = [] ∧
    (chunk_comments ["aaaaaaaa"] 1).head? = some [] ∧
    (["ab"] : List String) ≠ [] :=
  ⟨(chunk_comments_empty_batch_iff [] 5).1 rfl,
   (chunk_comments_empty_batch_iff ["aaaaaaaa"] 1).2.2.2 "aaaaaaaa" [] rfl (by decide),
   (chunk_comments_empty_batch_iff ["ab"] 3).2.2.1 "ab" [] rfl (by decide) ["ab"] (by decide)⟩

/-- C4: concatenating the batches of `chunk_comments`, in batch order,
reproduces the input list exactly. -/
theorem chunk_comments_flatten_eq (comments : List String) (maxTokens : Nat) :
    (chunk_comments comments maxTokens).flatten = comments :=
  chunkAux_flatten maxTokens comments [] 0

/-- C5: every batch either has aggregate estimated size within the limit or is
a single comment whose own estimated size exceeds the limit; consequently a
comment whose estimated size exceeds the limit is always the sole member of
its batch. -/
theorem chunk_comments_size_bound (comments : List String) (maxTokens : Nat) :
    ∀ b ∈ chunk_comments comments maxTokens,
      (batchSize b ≤ maxTokens ∨ ∃ c, b = [c] ∧ maxTokens < commentTokens c) ∧
      (∀ c ∈ b, maxTokens < commentTokens c → b = [c]) := by
  intro b hb
  have h1 := chunkAux_size maxTokens comments [] 0 (by simp [batchSize])
    (Or.inl (by simp [batchSize])) b hb
  refine ⟨h1, ?_⟩
  intro c hc hlt
  rcases h1 with h | ⟨c', hbc, h'⟩
  · exfalso
    have : commentTokens c ≤ batchSize b :=
      List.le_sum_of_mem (List.mem_map_of_mem commentTokens hc)
    omega
  · subst hbc
    rcases List.mem_singleton.mp hc with rfl
    rfl

/-- C5 (witness): the size bound at a concrete batch of a concrete run. -/
theorem chunk_comments_size_bound_witness :
    batchSize ["abcd"] ≤ 1 ∨ ∃ c, (["abcd"] : List String) = [c] ∧ 1 < commentTokens c :=
  (chunk_comments_size_bound ["abcd", "efgh"] 1 ["abcd"] (by decide)).1

/-! ## `pandasUnique` lemmas -/

/-- Membership in the unique-collection loop: the value occurs in the input
and was not already seen. -/
theorem mem_pandasUniqueAux {α : Type} [DecidableEq α] (l : List α) :
    ∀ (seen : List α) (x : α), x ∈ pandasUniqueAux seen l ↔ x ∈ l ∧ x ∉ seen := by
  induction l with
  | nil => simp [pandasUniqueAux]
  | cons y rest ih =>
    intro seen x
    simp only [pandasUniqueAux]
    split
    · next hy =>
      rw [ih]
      simp only [List.mem_cons]
      by_cases hxy : x = y
      · subst hxy; simp [hy]
      · simp [hxy]
    · next hy =>
      simp only [List.mem_cons, ih (y :: seen) x]
      by_cases hxy : x = y
      · subst hxy; simp [hy]
      · simp [hxy]

/-- The unique-collection loop emits no duplicates. -/
theorem nodup_pandasUniqueAux {α : Type} [DecidableEq α] (l : List α) :
    ∀ seen : List α, (pandasUniqueAux seen l).Nodup := by
  induction l with
  | nil => intro seen; simp [pandasUniqueAux]
  | cons y rest ih =>
    intro seen
    simp only [pandasUniqueAux]
    split
    · exact ih seen
    · rw [List.nodup_cons]
      refine ⟨fun hmem => ?_, ih (y :: seen)⟩
      exact ((mem_pandasUniqueAux rest (y :: seen) y).mp hmem).2 (List.mem_cons_self y seen)

/-- The unique-collection loop's output is a sublist of its input. -/
theorem pandasUniqueAux_sublist {α : Type} [DecidableEq α] (l : List α) :
    ∀ seen : List α, List.Sublist (pandasUniqueAux seen l) l := by
  induction l with
  | nil => intro seen; simp [pandasUniqueAux]
  | cons y rest ih =>
    intro seen
    simp only [pandasUniqueAux]
    split
    · exact (ih seen).cons y
    · exact (ih (y :: seen)).cons₂ y

/-- Membership is preserved by `pandasUnique`. -/
theorem mem_pandasUnique {α : Type} [DecidableEq α] (l : List α) (x : α) :
    x ∈ pandasUnique l ↔ x ∈ l := by
  simp [pandasUnique, mem_pandasUniqueAux]

/-- Applying `pandasUnique` to a `≤`-sorted list gives a strictly sorted list. -/
theorem pandasUnique_sorted_lt (l : List Nat) (h : l.Sorted (· ≤ ·)) :
    (pandasUnique l).Sorted (· < ·) :=
  List.Sorted.lt_of_le (h.sublist (pandasUniqueAux_sublist l []))
    (nodup_pandasUniqueAux l [])

/-- Two comments on the same marker-bearing video (`video_id = "v1"`, title
`"AMA #1"`), published at timestamps 1 and 2. -/
def dfC2 : List Record :=
  [⟨"u1", "hi", 0, 1, "v1", "AMA #1", "url1"⟩,
   ⟨"u2", "yo", 0, 2, "v1", "AMA #1", "url1"⟩]

/-- C2 (counterexample): on an input whose two marker-bearing records belong
to one and the same source, `find_ama_dates` returns both of that source's
distinct comment timestamps, not "one timestamp per marker source, its
earliest occurrence" (which would be `[1]`, here computed by the claim-side
definition `find_ama_dates_claimed`). -/
theorem find_ama_dates_per_source_cex :
    find_ama_dates dfC2 = [1, 2] ∧ find_ama_dates_claimed dfC2 = [1] ∧
    (∀ r ∈ dfC2, r.video_id = "v1" ∧ hasAmaMarker r.video_title = true) ∧
    find_ama_dates dfC2 ≠ find_ama_dates_claimed dfC2 := by
  refine ⟨by decide, by decide, by decide, by decide⟩

/-- C2 (amended): `find_ama_dates` returns the distinct, ascending-sorted list
of the timestamps of all marker-bearing records — a record whose source title
contains the configured token as a case-insensitive substring — with possibly
several timestamps per marker source. -/
theorem find_ama_dates_sorted_complete (df : List Record) :
    (find_ama_dates df).Sorted (· < ·) ∧
    ∀ t : Nat, t ∈ find_ama_dates df ↔
      ∃ r ∈ df, hasAmaMarker r.video_title = true ∧ r.published_at = t := by
  constructor
  · exact pandasUnique_sorted_lt _ (List.sorted_insertionSort (· ≤ ·) _)
  · intro t
    simp only [find_ama_dates]
    rw [mem_pandasUnique, List.mem_insertionSort]
    simp only [List.mem_map, List.mem_filter]
    constructor
    · rintro ⟨r, ⟨hr, hm⟩, hp⟩
      exact ⟨r, hr, hm, hp⟩
    · rintro ⟨r, hr, hm, hp⟩
      exact ⟨r, ⟨hr, hm⟩, hp⟩

/-! ## Period-boundary lemmas -/

/-- Membership in `period_labels`: exactly the boundaries `mkBoundary dates i`
for `i < len - 1`. -/
theorem mem_period_labels {dates : List Nat} {p : PeriodLabel} :
    p ∈ period_labels dates ↔ ∃ i, i < dates.length - 1 ∧ p = mkBoundary dates i := by
  simp only [period_labels, List.mem_map, List.mem_range]
  constructor
  · rintro ⟨i, hi, rfl⟩; exact ⟨i, hi, rfl⟩
  · rintro ⟨i, hi, rfl⟩; exact ⟨i, hi, rfl⟩

/-- In a strictly sorted list, `getD` is strictly monotone (within bounds). -/
theorem sorted_getD_lt (dates : List Nat) (hs : dates.Sorted (· < ·)) {i j : Nat}
    (hij : i < j) (hj : j < dates.length) :
    dates.getD i 0 < dates.getD j 0 := by
  have hi : i < dates.length := lt_trans hij hj
  rw [List.getD_eq_getElem?_getD, List.getD_eq_getElem?_getD,
    List.getElem?_eq_getElem hi, List.getElem?_eq_getElem hj]
  simp only [Option.getD_some]
  have h := hs.rel_get_of_lt (show (⟨i, hi⟩ : Fin dates.length) < ⟨j, hj⟩ from hij)
  simpa [List.get_eq_getElem] using h

/-- In a strictly sorted list, `getD` is monotone (within bounds). -/
theorem sorted_getD_le (dates : List Nat) (hs : dates.Sorted (· < ·)) {i j : Nat}
    (hij : i ≤ j) (hj : j < dates.length) :
    dates.getD i 0 ≤ dates.getD j 0 := by
  rcases Nat.eq_or_lt_of_le hij with rfl | h
  · exact le_refl _
  · exact le_of_lt (sorted_getD_lt dates hs h hj)

/-- For strictly sorted dates, at most one boundary interval contains a given
timestamp. -/
theorem period_labels_disjoint (dates : List Nat) (hs : dates.Sorted (· < ·)) (t : Nat) :
    ∀ p ∈ period_labels dates, ∀ q ∈ period_labels dates,
      p.start ≤ t ∧ t < p.stop → q.start ≤ t ∧ t < q.stop → p = q := by
  intro p hp q hq hpm hqm
  rcases mem_period_labels.mp hp with ⟨i, hi, rfl⟩
  rcases mem_period_labels.mp hq with ⟨j, hj, rfl⟩
  rcases lt_trichotomy i j with h | rfl | h
  · exfalso
    have h1 : dates.getD (i + 1) 0 ≤ dates.getD j 0 :=
      sorted_getD_le dates hs h (lt_of_lt_of_le hj (Nat.sub_le _ _))
    have h2 := hpm.2
    have h3 := hqm.1
    simp only [mkBoundary] at h2 h3
    omega
  · rfl
  · exfalso
    have h1 : dates.getD (j + 1) 0 ≤ dates.getD i 0 :=
      sorted_getD_le dates hs h (lt_of_lt_of_le hi (Nat.sub_le _ _))
    have h2 := hqm.2
    have h3 := hpm.1
    simp only [mkBoundary] at h2 h3
    omega

/-- The assignment fold leaves the accumulator unchanged when no boundary
matches. -/
theorem assignedPeriod_of_no_match (t : Nat) :
    ∀ (ps : List PeriodLabel) (acc : Option String),
      (∀ p ∈ ps, ¬(p.start ≤ t ∧ t < p.stop)) →
      ps.foldl (fun a p => if p.start ≤ t ∧ t < p.stop then some p.label else a) acc = acc := by
  intro ps
  induction ps with
  | nil => intro acc _; rfl
  | cons q rest ih =>
    intro acc h
    simp only [List.foldl_cons]
    rw [if_neg (h q (List.mem_cons_self q rest))]
    exact ih _ (fun p hp => h p (List.mem_cons_of_mem q hp))

/-- The assignment fold returns `some lbl` when some boundary matches and all
matching boundaries carry the label `lbl` (the last matching write wins, and
all matching writes agree). -/
theorem assignedPeriod_of_match (t : Nat) (lbl : String) :
    ∀ (ps : List PeriodLabel) (acc : Option String),
      (∀ q ∈ ps, (q.start ≤ t ∧ t < q.stop) → q.label = lbl) →
      (∃ q ∈ ps, q.start ≤ t ∧ t < q.stop) →
      ps.foldl (fun a p => if p.start ≤ t ∧ t < p.stop then some p.label else a) acc
        = some lbl := by
  intro ps
  induction ps with
  | nil =>
    rintro acc _ ⟨q, hq, _⟩
    exact absurd hq (List.not_mem_nil q)
  | cons q rest ih =>
    rintro acc hall hex
    simp only [List.foldl_cons]
    by_cases hrest : ∃ p ∈ rest, p.start ≤ t ∧ t < p.stop
    · exact ih _ (fun p hp hm => hall p (List.mem_cons_of_mem q hp) hm) hrest
    · have hqm : q.start ≤ t ∧ t < q.stop := by
        rcases hex with ⟨p, hp, hm⟩
        rcases List.mem_cons.mp hp with rfl | hp
        · exact hm
        · exact absurd ⟨p, hp, hm⟩ hrest
      rw [if_pos hqm]
      rw [assignedPeriod_of_no_match t rest _ (fun p hp hm => hrest ⟨p, hp, hm⟩)]
      rw [hall q (List.mem_cons_self q rest) hqm]

/-- C3: for boundaries built from sorted distinct marker timestamps, each
record is assigned to at most one period — the unique boundary with
`start <= published_at < end` when one exists — and to none when no interval
contains its timestamp; in particular a timestamp before the first boundary's
start or at/after the last boundary's end is assigned to no period. -/
theorem assign_periods_unique_interval (df : List Record) (dates : List Nat)
    (hs : dates.Sorted (· < ·)) (r : Record) (hr : r ∈ df) :
    (r, assignedPeriod (period_labels dates) r.published_at) ∈ assign_periods df dates ∧
    (∀ p ∈ period_labels dates, ∀ q ∈ period_labels dates,
      p.start ≤ r.published_at ∧ r.published_at < p.stop →
      q.start ≤ r.published_at ∧ r.published_at < q.stop → p = q) ∧
    (∀ p ∈ period_labels dates, p.start ≤ r.published_at ∧ r.published_at < p.stop →
      assignedPeriod (period_labels dates) r.published_at = some p.label) ∧
    ((∀ p ∈ period_labels dates, ¬(p.start ≤ r.published_at ∧ r.published_at < p.stop)) →
      assignedPeriod (period_labels dates) r.published_at = none) ∧
    (∀ t0, dates.head? = some t0 → r.published_at < t0 →
      assignedPeriod (period_labels dates) r.published_at = none) ∧
    (∀ tn, dates.getLast? = some tn → tn ≤ r.published_at →
      assignedPeriod (period_labels dates) r.published_at = none) := by
  set t := r.published_at with ht
  refine ⟨?_, ?_, ?_, ?_, ?_, ?_⟩
  · exact List.mem_map_of_mem
      (fun r => (r, assignedPeriod (period_labels dates) r.published_at)) hr
  · exact period_labels_disjoint dates hs t
  · intro p hp hm
    exact assignedPeriod_of_match t p.label (period_labels dates) none
      (fun q hq hmq => congrArg PeriodLabel.label
        (period_labels_disjoint dates hs t q hq p hp hmq hm))
      ⟨p, hp, hm⟩
  · intro h
    exact assignedPeriod_of_no_match t (period_labels dates) none h
  · intro t0 h0 hlt
    refine assignedPeriod_of_no_match t (period_labels dates) none ?_
    intro p hp hm
    rcases mem_period_labels.mp hp with ⟨i, hi, rfl⟩
    have hstart : t0 ≤ dates.getD i 0 := by
      cases dates with
      | nil => simp at h0
      | cons d ds =>
        have : t0 = d := by simpa using h0.symm
        subst this
        exact sorted_getD_le _ hs (Nat.zero_le i)
          (lt_of_lt_of_le hi (Nat.sub_le _ _))
    have := hm.1
    simp only [mkBoundary] at this
    omega
  · intro tn hn hle
    refine assignedPeriod_of_no_match t (period_labels dates) none ?_
    intro p hp hm
    rcases mem_period_labels.mp hp with ⟨i, hi, rfl⟩
    have hne : dates ≠ [] := by
      intro h
      subst h
      simp at hn
    have hlen : 0 < dates.length := List.length_pos.mpr hne
    have htn : tn = dates.getD (dates.length - 1) 0 := by
      rw [List.getLast?_eq_getElem?] at hn
      rw [List.getD_eq_getElem?_getD, hn]
      rfl
    have hstop : dates.getD (i + 1) 0 ≤ tn := by
      rw [htn]
      exact sorted_getD_le _ hs (by omega) (by omega)
    have := hm.2
    simp only [mkBoundary] at this
    omega

/-- C3 (witness): with sorted distinct dates `[1, 3, 5]`, a record published
at 3 is assigned to the second period. -/
theorem assign_periods_unique_interval_witness :
    assignedPeriod (period_labels [1, 3, 5]) 3 = some "Period 2: 3 to 5" :=
  (assign_periods_unique_interval [⟨"a", "t", 0, 3, "v", "vid title", "u"⟩] [1, 3, 5]
      (by decide) ⟨"a", "t", 0, 3, "v", "vid title", "u"⟩ (by decide)).2.2.1
    ⟨3, 5, "Period 2: 3 to 5"⟩ (by decide) (by decide)

/-- C6: with at least two distinct marker timestamps, `assign_periods` builds
exactly `n - 1` boundaries, the `i`-th being the consecutive pair
`(t_i, t_{i+1})`. -/
theorem period_labels_consecutive_pairs (dates : List Nat) (_h : 2 ≤ dates.length) :
    (period_labels dates).length = dates.length - 1 ∧
    ∀ i, i < dates.length - 1 →
      ((period_labels dates).getD i ⟨0, 0, ""⟩).start = dates.getD i 0 ∧
      ((period_labels dates).getD i ⟨0, 0, ""⟩).stop = dates.getD (i + 1) 0 := by
  constructor
  · simp [period_labels]
  · intro i hi
    rw [List.getD_eq_getElem?_getD]
    simp only [period_labels, List.getElem?_map, List.getElem?_range hi]
    simp [mkBoundary]

/-- C6 (witness): three distinct timestamps yield two boundaries, the first
starting at the first timestamp. -/
theorem period_labels_consecutive_pairs_witness :
    (period_labels [1, 3, 5]).length = 2 ∧
    ((period_labels [1, 3, 5]).getD 0 ⟨0, 0, ""⟩).start = 1 :=
  ⟨(period_labels_consecutive_pairs [1, 3, 5] (by decide)).1,
   ((period_labels_consecutive_pairs [1, 3, 5] (by decide)).2 0 (by decide)).1⟩

/-- C8: with fewer than two distinct marker timestamps the grouper run fails
with `InsufficientBoundaries` and produces no output; with at least two it
proceeds to period assignment. -/
theorem grouper_main_insufficient_boundaries (df : List Record) :
    ((find_ama_dates df).length < 2 →
      grouper_main df = Except.error ConfigError.InsufficientBoundaries) ∧
    (2 ≤ (find_ama_dates df).length →
      grouper_main df = Except.ok (assign_periods df (find_ama_dates df))) := by
  constructor
  · intro h
    simp only [grouper_main]
    rw [if_pos h]
  · intro h
    simp only [grouper_main]
    rw [if_neg (Nat.not_lt.mpr h)]

/-- C8 (witness): an input with no marker-bearing record fails with
`InsufficientBoundaries`. -/
theorem grouper_main_insufficient_boundaries_witness :
    grouper_main [] = Except.error ConfigError.InsufficientBoundaries :=
  (grouper_main_insufficient_boundaries []).1 (by decide)

/-! ## Merger and Summarizer lemmas -/

/-- The join `sep.join(l)` is non-empty whenever some member is non-empty. -/
theorem joinSep_data_ne_nil (sep : String) :
    ∀ (l : List String) (a : String), a ∈ l → a.data ≠ [] → (joinSep sep l).data ≠ [] := by
  intro l
  induction l with
  | nil => intro a ha _; exact absurd ha (List.not_mem_nil a)
  | cons x rest ih =>
    intro a ha hne
    cases rest with
    | nil =>
      rcases List.mem_singleton.mp ha with rfl
      simpa [joinSep] using hne
    | cons y ys =>
      simp only [joinSep, String.data_append]
      rcases List.mem_cons.mp ha with rfl | ha
      · intro hcontra
        rcases List.append_eq_nil.mp hcontra with ⟨h1, _⟩
        rcases List.append_eq_nil.mp h1 with ⟨h2, _⟩
        exact hne h2
      · intro hcontra
        rcases List.append_eq_nil.mp hcontra with ⟨_, h2⟩
        exact ih a ha hne h2

/-- C7 (counterexample): with the non-empty partial `"a"` present, a
consolidation call that succeeds but returns empty text makes
`merge_analyses` return the empty string — refuting "never returns the empty
string when at least one non-empty partial exists". -/
theorem merge_analyses_nonempty_claim_cex :
    merge_analyses (some "") ["a", "b"] = "" ∧ ("a" : String) ≠ "" ∧
      ("a" : String) ∈ ["a", "b"] :=
  ⟨rfl, by decide, by decide⟩

/-- C7 (amended): `merge_analyses` is total with a guaranteed fallback — the
empty list yields the fixed placeholder; when the consolidation call fails the
result is the blank-line concatenation of the partials; and under failure of
the consolidation call the result is never empty when some partial is
non-empty.  (A successful consolidation call is returned verbatim and may
itself be empty.) -/
theorem merge_analyses_fallback (callResult : Option String) (analyses : List String) :
    (analyses = [] → merge_analyses callResult analyses = "No analysis available.") ∧
    (2 ≤ analyses.length → merge_analyses none analyses = joinSep "\n\n" analyses) ∧
    ((∃ a ∈ analyses, a ≠ "") → merge_analyses none analyses ≠ "") := by
  refine ⟨?_, ?_, ?_⟩
  · rintro rfl; rfl
  · intro h
    cases analyses with
    | nil => simp at h
    | cons x rest =>
      cases rest with
      | nil => simp at h
      | cons y ys => rfl
  · rintro ⟨a, ha, hne⟩
    cases analyses with
    | nil => exact absurd ha (List.not_mem_nil a)
    | cons x rest =>
      cases rest with
      | nil =>
        rcases List.mem_singleton.mp ha with rfl
        simpa [merge_analyses] using hne
      | cons y ys =>
        show joinSep "\n\n" (x :: y :: ys) ≠ ""
        intro hcontra
        have hd : a.data ≠ [] := fun h2 => hne (String.ext (by rw [h2]))
        exact joinSep_data_ne_nil "\n\n" (x :: y :: ys) a ha hd (by rw [hcontra])

/-- C7 (witness): the amended statement at concrete inputs — empty input gives
the placeholder, and a failing consolidation over `["x", ""]` gives the
non-empty concatenation. -/
theorem merge_analyses_fallback_witness :
    merge_analyses (some "z") ([] : List String) = "No analysis available." ∧
    merge_analyses none ["x", ""] = joinSep "\n\n" ["x", ""] ∧
    merge_analyses none ["x", ""] ≠ "" :=
  ⟨(merge_analyses_fallback (some "z") []).1 rfl,
   (merge_analyses_fallback none ["x", ""]).2.1 (by decide),
   (merge_analyses_fallback none ["x", ""]).2.2 ⟨"x", by decide, by decide⟩⟩

/-- C10: `merge_analyses` returns a singleton's sole element unchanged — also
when it is the empty string (no non-triviality check) — and returns the
placeholder on the empty list. -/
theorem merge_analyses_singleton_identity (callResult : Option String) :
    (∀ x : String, merge_analyses callResult [x] = x) ∧
    merge_analyses callResult [""] = "" ∧
    merge_analyses callResult [] = "No analysis available." :=
  ⟨fun _ => rfl, rfl, rfl⟩

/-- C9: `analyze_chunk` maps any failure of the external call to the empty
string (it does not raise), and the per-period collection keeps exactly the
non-empty successful contents, in order — a failed batch contributes nothing
and does not abort the others. -/
theorem analyze_chunk_failure_policy (chunks : List (List String))
    (outcomes : List (Option String)) (comments : List String) :
    analyze_chunk none comments = "" ∧
    chunk_analyses outcomes chunks =
      (chunks.zip outcomes).filterMap (fun pr =>
        match pr.2 with
        | some content => if content ≠ "" then some content else none
        | none => none) := by
  refine ⟨rfl, ?_⟩
  unfold chunk_analyses
  induction chunks.zip outcomes with
  | nil => rfl
  | cons pr rest ih =>
    rcases pr with ⟨c, o⟩
    cases o with
    | some content =>
      by_cases hc : content = ""
      · subst hc
        simpa [analyze_chunk, List.filter_cons] using ih
      · simpa [analyze_chunk, List.filter_cons, hc] using ih
    | none =>
      simpa [analyze_chunk, List.filter_cons] using ih
